import Mathlib

/-!
Verification development for the block shipper (`pkg/shipper/shipper.go`).

The shipper scans a local directory for TSDB blocks, uploads first-level
blocks that are not yet present in a remote object store, and tracks
confirmed uploads in a bookkeeping file `thanos.shipper.json` written
atomically via a temp-file-and-rename scheme.

Shallow embedding conventions:
- A scanned local block is a `LocalBlock` (its `meta.json` attributes plus
  the file names under its `chunks/` directory).  `iterBlockMetas` is
  represented by the list of successfully scanned blocks, in scan order.
- Remote object paths are lists of path components (`path.Join` never
  re-splits components, so `a/b` is `[a, b]`).  The remote bucket state is
  the list of object paths present.
- Fallible I/O steps of the per-block `sync` are driven by boolean oracles
  in `Env`; each run also produces a trace of observable `Effect`s
  (existence checks, staging-directory operations, object uploads) so that
  absence of staging or uploading is a provable statement.
- The bookkeeping file is a `MetaFileContent` (absent, unparseable, or a
  version plus uploaded-ID list), read by `ReadMetaFile` exactly as the
  source checks it (any version other than 1 is rejected).
- `WriteMetaFile`/`renameFile` are modelled by the micro-step list
  `writeMetaFileSteps`; crashing after `k` steps is `crashState`.
-/

namespace Shipper

/-- Attributes of a block's `meta.json` used by the shipper: ULID, time
range, and compaction level (`meta.Compaction.Level`). -/
structure BlockMeta where
  ulid : String
  minTime : Int
  maxTime : Int
  level : Nat
  deriving DecidableEq

/-- A block successfully scanned from the local directory: its meta plus
the file names found under its `chunks/` subdirectory. -/
structure LocalBlock where
  meta : BlockMeta
  chunkFiles : List String
  deriving DecidableEq

/-- A remote object path, as the list of its `path.Join` components. -/
abbrev ObjPath := List String

/-- Manifest file name inside a block directory (`block.MetaFilename`,
an external constant of the `block` package; the spec calls it the
manifest object `<blockID>/<manifestFilename>`). -/
def blockMetaFilename : String := "meta.json"

/-- Index file name inside a block directory (`block.IndexFilename`). -/
def indexFilename : String := "index"

/-- Chunk segment subdirectory name (`block.ChunksDirname`). -/
def chunksDirname : String := "chunks"

/-- Remote path of a block's manifest object:
`path.Join(meta.ULID.String(), block.MetaFilename)`. -/
def metaObjPath (id : String) : ObjPath := [id, blockMetaFilename]

/-- Modelled from the spec: `block.Upload` (package `pkg/block`, not part
of the shipper source file) transfers every file of the staged block
directory to the remote store under the block-ID prefix — the chunk files
and the index file — with the manifest uploaded last, "so a reader polling
remote existence of the manifest never observes a block with some but not
all data files present".  The staged directory holds the hard-linked chunk
files, the index file, and the rewritten manifest (`hardlinkBlock` plus
the staged `meta.json`). -/
def blockUploadPaths (b : LocalBlock) : List ObjPath :=
  b.chunkFiles.map (fun fn => [b.meta.ulid, chunksDirname, fn])
    ++ [[b.meta.ulid, indexFilename], metaObjPath b.meta.ulid]

/-- Observable side effects of one `Sync` pass, tagged with the ULID of
the block being processed. -/
inductive Effect where
  | existsCheck (id : String) (p : ObjPath)
  | removeUploadDir (id : String)
  | createUploadDir (id : String)
  | hardlinkBlock (id : String)
  | writeStagedMeta (id : String)
  | uploadObject (id : String) (p : ObjPath)
  | logError (id : String)
  deriving DecidableEq

/-- ULID of the block an effect belongs to. -/
def Effect.blockId : Effect → String
  | .existsCheck id _ => id
  | .removeUploadDir id => id
  | .createUploadDir id => id
  | .hardlinkBlock id => id
  | .writeStagedMeta id => id
  | .uploadObject id _ => id
  | .logError id => id

/-- Object paths written to the remote store by a trace of effects. -/
def uploadedPaths (tr : List Effect) : List ObjPath :=
  tr.filterMap fun e =>
    match e with
    | .uploadObject _ p => some p
    | _ => none

/-- Error site of a failed per-block `sync`, one per `errors.Wrap` site in
the source. -/
inductive SyncErr where
  | checkExists
  | cleanUploadDir
  | createUploadDir
  | hardLinkBlock
  | writeMetaFile
  | upload
  deriving DecidableEq

/-- Failure oracles for the fallible I/O of one pass.  `existsErr p` makes
`bucket.Exists` on path `p` return an error; the per-block oracles make
the correspondingly named local step fail for the given block ULID.
`uploadFailAfter id = some k` makes `block.Upload` fail after `k` objects
have been transferred; `none` means the upload succeeds. -/
structure Env where
  existsErr : ObjPath → Bool
  removeAllErr : String → Bool
  mkdirErr : String → Bool
  hardlinkErr : String → Bool
  writeMetaErr : String → Bool
  uploadFailAfter : String → Option Nat

/-- Per-block upload procedure `Shipper.sync`.  Returns the trace of
effects performed and `none` on success or the failing step.  Mirrors the
source: skip compaction levels above 1; check remote existence of the
manifest object and stop successfully if present; remove and recreate the
staging directory; hard-link the block files; write the staged manifest;
upload via `block.Upload`; the deferred staging cleanup runs on every path
reached after the staging directory was created. -/
def sync (env : Env) (remote : List ObjPath) (b : LocalBlock) :
    List Effect × Option SyncErr :=
  if b.meta.level > 1 then ([], none)
  else if env.existsErr (metaObjPath b.meta.ulid) then
    ([.existsCheck b.meta.ulid (metaObjPath b.meta.ulid)], some .checkExists)
  else if metaObjPath b.meta.ulid ∈ remote then
    ([.existsCheck b.meta.ulid (metaObjPath b.meta.ulid)], none)
  else if env.removeAllErr b.meta.ulid then
    ([.existsCheck b.meta.ulid (metaObjPath b.meta.ulid)], some .cleanUploadDir)
  else if env.mkdirErr b.meta.ulid then
    ([.existsCheck b.meta.ulid (metaObjPath b.meta.ulid),
      .removeUploadDir b.meta.ulid], some .createUploadDir)
  else if env.hardlinkErr b.meta.ulid then
    ([.existsCheck b.meta.ulid (metaObjPath b.meta.ulid),
      .removeUploadDir b.meta.ulid, .createUploadDir b.meta.ulid,
      .removeUploadDir b.meta.ulid], some .hardLinkBlock)
  else if env.writeMetaErr b.meta.ulid then
    ([.existsCheck b.meta.ulid (metaObjPath b.meta.ulid),
      .removeUploadDir b.meta.ulid, .createUploadDir b.meta.ulid,
      .hardlinkBlock b.meta.ulid, .removeUploadDir b.meta.ulid],
     some .writeMetaFile)
  else
    match env.uploadFailAfter b.meta.ulid with
    | some k =>
        ([.existsCheck b.meta.ulid (metaObjPath b.meta.ulid),
          .removeUploadDir b.meta.ulid, .createUploadDir b.meta.ulid,
          .hardlinkBlock b.meta.ulid, .writeStagedMeta b.meta.ulid]
           ++ ((blockUploadPaths b).take k).map (Effect.uploadObject b.meta.ulid)
           ++ [.removeUploadDir b.meta.ulid], some .upload)
    | none =>
        ([.existsCheck b.meta.ulid (metaObjPath b.meta.ulid),
          .removeUploadDir b.meta.ulid, .createUploadDir b.meta.ulid,
          .hardlinkBlock b.meta.ulid, .writeStagedMeta b.meta.ulid]
           ++ (blockUploadPaths b).map (Effect.uploadObject b.meta.ulid)
           ++ [.removeUploadDir b.meta.ulid], none)

/-- Bookkeeping record of `thanos.shipper.json`: a version and the list of
ULIDs confirmed uploaded (`Meta` in the source). -/
structure Meta where
  version : Nat
  uploaded : List String
  deriving DecidableEq

/-- State of the bookkeeping file on disk: missing, unparseable JSON, or a
parsed version plus uploaded list. -/
inductive MetaFileContent where
  | absent
  | corrupt
  | valid (version : Nat) (uploaded : List String)
  deriving DecidableEq

/-- Errors of `ReadMetaFile`: read failure (file missing), JSON unmarshal
failure, or an unexpected version number. -/
inductive ReadErr where
  | notFound
  | corrupt
  | versionMismatch (v : Nat)
  deriving DecidableEq

/-- `ReadMetaFile`: read and decode `<dir>/thanos.shipper.json`, rejecting
any version other than 1. -/
def ReadMetaFile : MetaFileContent → Except ReadErr Meta
  | .absent => .error .notFound
  | .corrupt => .error .corrupt
  | .valid v ids => if v = 1 then .ok ⟨v, ids⟩ else .error (.versionMismatch v)

/-- The record `Sync` starts from: the loaded bookkeeping record, or an
empty record of version 1 when loading fails for any reason. -/
def loadedMeta (file : MetaFileContent) : Meta :=
  match ReadMetaFile file with
  | .ok m => m
  | .error _ => ⟨1, []⟩

/-- Result of the per-pass block loop: the rebuilt uploaded list, the
remote bucket contents afterwards, and the trace of effects. -/
structure PassResult where
  uploaded : List String
  remote : List ObjPath
  trace : List Effect
  deriving DecidableEq

/-- The `iterBlockMetas` callback loop of `Sync`: for each scanned block,
skip the per-block `sync` when the ULID is already recorded, otherwise run
it against the current remote state; on failure log and drop the ID, on
success append it; either way continue with the remaining blocks. -/
def syncLoop (env : Env) (hup : List String) :
    List LocalBlock → List ObjPath → PassResult
  | [], remote => ⟨[], remote, []⟩
  | b :: bs, remote =>
    if b.meta.ulid ∈ hup then
      ⟨b.meta.ulid :: (syncLoop env hup bs remote).uploaded,
       (syncLoop env hup bs remote).remote,
       (syncLoop env hup bs remote).trace⟩
    else
      match (sync env remote b).2 with
      | some _ =>
          ⟨(syncLoop env hup bs (remote ++ uploadedPaths (sync env remote b).1)).uploaded,
           (syncLoop env hup bs (remote ++ uploadedPaths (sync env remote b).1)).remote,
           (sync env remote b).1 ++ Effect.logError b.meta.ulid ::
             (syncLoop env hup bs (remote ++ uploadedPaths (sync env remote b).1)).trace⟩
      | none =>
          ⟨b.meta.ulid :: (syncLoop env hup bs (remote ++ uploadedPaths (sync env remote b).1)).uploaded,
           (syncLoop env hup bs (remote ++ uploadedPaths (sync env remote b).1)).remote,
           (sync env remote b).1 ++
             (syncLoop env hup bs (remote ++ uploadedPaths (sync env remote b).1)).trace⟩

/-- Result of one `Sync` pass: the bookkeeping record handed to
`WriteMetaFile`, the remote bucket contents afterwards, and the trace. -/
structure SyncResult where
  written : Meta
  remote : List ObjPath
  trace : List Effect
  deriving DecidableEq

/-- One `Shipper.Sync` pass: load the bookkeeping record (falling back to
an empty version-1 record on any read error), rebuild the uploaded list
over the scanned blocks, and hand the rebuilt record to `WriteMetaFile`. -/
def Sync (env : Env) (blocks : List LocalBlock) (file : MetaFileContent)
    (remote : List ObjPath) : SyncResult :=
  ⟨⟨(loadedMeta file).version,
    (syncLoop env (loadedMeta file).uploaded blocks remote).uploaded⟩,
   (syncLoop env (loadedMeta file).uploaded blocks remote).remote,
   (syncLoop env (loadedMeta file).uploaded blocks remote).trace⟩

/-- Largest int64 value, the initial `minTime` accumulator of
`Timestamps` (`math.MaxInt64`). -/
def maxInt64 : Int := 9223372036854775807

/-- Smallest int64 value, the initial `maxSyncTime` accumulator of
`Timestamps` (`math.MinInt64`). -/
def minInt64 : Int := -9223372036854775808

/-- The `iterBlockMetas` fold of `Timestamps`: lower `mn` to any smaller
block start time; raise `mx` to any larger end time of a recorded block. -/
def timestampsFold (hup : List String) :
    List LocalBlock → Int → Int → Int × Int
  | [], mn, mx => (mn, mx)
  | b :: bs, mn, mx =>
      timestampsFold hup bs
        (if b.meta.minTime < mn then b.meta.minTime else mn)
        (if decide (b.meta.ulid ∈ hup) && decide (b.meta.maxTime > mx)
          then b.meta.maxTime else mx)

/-- `Shipper.Timestamps`: on a bookkeeping read error return zeros and the
error; otherwise fold over the scanned blocks starting from the int64
sentinels and map an untouched `minTime` accumulator to 0. -/
def Timestamps (file : MetaFileContent) (blocks : List LocalBlock) :
    Int × Int × Option ReadErr :=
  match ReadMetaFile file with
  | .error e => (0, 0, some e)
  | .ok m =>
      ((if (timestampsFold m.uploaded blocks maxInt64 minInt64).1 = maxInt64
          then 0 else (timestampsFold m.uploaded blocks maxInt64 minInt64).1),
       (timestampsFold m.uploaded blocks maxInt64 minInt64).2,
       none)

/-- Filesystem state around the bookkeeping file: the content at the
target path, the content at the sibling `.tmp` path (`none` = no file),
and whether the parent directory has been fsynced since the rename. -/
structure FsState where
  target : Option (List Nat)
  tmp : Option (List Nat)
  dirSynced : Bool
  deriving DecidableEq

/-- Atomic micro-steps of `WriteMetaFile` and `renameFile`. -/
inductive WStep where
  | createTmp
  | writeByte (x : Nat)
  | closeTmp
  | removeTarget
  | renameTmpToTarget
  | fsyncDir
  deriving DecidableEq

/-- Effect of one micro-step on the filesystem state. -/
def applyStep (s : FsState) : WStep → FsState
  | .createTmp => { s with tmp := some [] }
  | .writeByte x => { s with tmp := some ((s.tmp.getD []) ++ [x]) }
  | .closeTmp => s
  | .removeTarget => { s with target := none }
  | .renameTmpToTarget => { s with target := s.tmp, tmp := none }
  | .fsyncDir => { s with dirSynced := true }

/-- Micro-step sequence of `WriteMetaFile(logger, dir, meta)` followed by
`renameFile`: create `<path>.tmp`, serialize the record into it byte by
byte, close it, `os.RemoveAll` the target, `os.Rename` the temp file onto
the target, and fsync the parent directory. -/
def writeMetaFileSteps (content : List Nat) : List WStep :=
  [WStep.createTmp] ++ content.map WStep.writeByte
    ++ [WStep.closeTmp, WStep.removeTarget, WStep.renameTmpToTarget, WStep.fsyncDir]

/-- Run a list of micro-steps from a state. -/
def runSteps (s : FsState) (steps : List WStep) : FsState :=
  steps.foldl applyStep s

/-- Filesystem state if the process crashes after the first `k`
micro-steps of writing `content` over a target holding `old`. -/
def crashState (old : Option (List Nat)) (content : List Nat) (k : Nat) : FsState :=
  runSteps ⟨old, none, false⟩ ((writeMetaFileSteps content).take k)

/-- Whether the pass keeps a block's ULID in the rebuilt uploaded list:
it was already recorded, or its per-block `sync` succeeds. -/
def keeps (env : Env) (hup : List String) (remote : List ObjPath)
    (b : LocalBlock) : Bool :=
  decide (b.meta.ulid ∈ hup) || (sync env remote b).2.isNone

/-- Object paths a block's turn adds to the remote store (none when the
block is skipped as already recorded). -/
def blockAdds (env : Env) (hup : List String) (remote : List ObjPath)
    (b : LocalBlock) : List ObjPath :=
  if b.meta.ulid ∈ hup then [] else uploadedPaths (sync env remote b).1

/-- Trace contributed by one block's turn in the pass. -/
def blockTrace (env : Env) (hup : List String) (remote : List ObjPath)
    (b : LocalBlock) : List Effect :=
  if b.meta.ulid ∈ hup then []
  else
    match (sync env remote b).2 with
    | some _ => (sync env remote b).1 ++ [Effect.logError b.meta.ulid]
    | none => (sync env remote b).1


/-! Helper lemmas about the per-block procedure and the pass loop. -/

theorem mem_take_map {α β : Type} {f : α → β} {l : List α} {k : Nat} {e : β} :
    e ∈ List.take k (l.map f) ↔ ∃ a ∈ l.take k, f a = e := by
  rw [← List.map_take, List.mem_map]

theorem sync_congr (env : Env) (b : LocalBlock) {r r' : List ObjPath}
    (h : metaObjPath b.meta.ulid ∈ r ↔ metaObjPath b.meta.ulid ∈ r') :
    sync env r b = sync env r' b := by
  unfold sync
  by_cases hm : metaObjPath b.meta.ulid ∈ r
  · simp only [hm, h.mp hm, if_true]
  · have hm' : metaObjPath b.meta.ulid ∉ r' := fun hh => hm (h.mpr hh)
    simp only [hm, hm', if_false]

theorem mem_blockUploadPaths_head {b : LocalBlock} {q : ObjPath}
    (hq : q ∈ blockUploadPaths b) : ∃ t, q = b.meta.ulid :: t := by
  simp only [blockUploadPaths, List.mem_append, List.mem_map, List.mem_cons,
    metaObjPath, List.not_mem_nil, or_false] at hq
  rcases hq with ⟨fn, _, rfl⟩ | rfl | rfl <;> exact ⟨_, rfl⟩

theorem uploadedPaths_sync_sub (env : Env) (r : List ObjPath) (b : LocalBlock) :
    ∀ q ∈ uploadedPaths (sync env r b).1, q ∈ blockUploadPaths b := by
  intro q hq
  unfold sync at hq
  split_ifs at hq <;> try split at hq
  all_goals simp only [uploadedPaths, List.filterMap_cons, List.filterMap_append,
    ← List.map_take, List.filterMap_map, List.filterMap_nil, List.nil_append,
    List.append_nil, List.not_mem_nil] at hq
  all_goals
    (simp only [List.mem_filterMap, Function.comp_apply] at hq
     obtain ⟨a, ha, hfa⟩ := hq
     obtain rfl : a = q := by simpa using hfa
     first
       | exact List.take_subset _ _ ha
       | exact ha)

theorem syncLoop_eq (env : Env) (hup : List String) (remote : List ObjPath) :
    ∀ (blocks : List LocalBlock) (r' : List ObjPath),
      (blocks.map fun x => x.meta.ulid).Nodup →
      (∀ b ∈ blocks, (metaObjPath b.meta.ulid ∈ r' ↔ metaObjPath b.meta.ulid ∈ remote)) →
      syncLoop env hup blocks r' =
        ⟨(blocks.filter (keeps env hup remote)).map fun x => x.meta.ulid,
          r' ++ (blocks.map (blockAdds env hup remote)).flatten,
          (blocks.map (blockTrace env hup remote)).flatten⟩ := by
  intro blocks
  induction blocks with
  | nil => intro r' _ _; simp [syncLoop]
  | cons b bs ih =>
    intro r' hnd hiff
    rw [List.map_cons, List.nodup_cons] at hnd
    obtain ⟨hbid, hnd'⟩ := hnd
    have hiff' : ∀ b' ∈ bs,
        (metaObjPath b'.meta.ulid ∈ r' ↔ metaObjPath b'.meta.ulid ∈ remote) :=
      fun b' hb' => hiff b' (List.mem_cons_of_mem _ hb')
    by_cases hb : b.meta.ulid ∈ hup
    · rw [show syncLoop env hup (b :: bs) r' =
          ⟨b.meta.ulid :: (syncLoop env hup bs r').uploaded,
           (syncLoop env hup bs r').remote,
           (syncLoop env hup bs r').trace⟩ from by simp [syncLoop, hb]]
      rw [ih r' hnd' hiff']
      simp [keeps, blockAdds, blockTrace, hb, List.filter_cons]
    · have hcong : sync env r' b = sync env remote b :=
        sync_congr env b (hiff b (List.mem_cons_self _ _))
      have hext : ∀ b' ∈ bs,
          (metaObjPath b'.meta.ulid ∈ r' ++ uploadedPaths (sync env remote b).1 ↔
            metaObjPath b'.meta.ulid ∈ remote) := by
        intro b' hb'
        rw [List.mem_append]
        constructor
        · rintro (h | h)
          · exact (hiff' b' hb').mp h
          · exfalso
            obtain ⟨t, ht⟩ := mem_blockUploadPaths_head
              (uploadedPaths_sync_sub env remote b _ h)
            simp only [metaObjPath, List.cons.injEq] at ht
            exact hbid (ht.1 ▸ List.mem_map_of_mem (fun x => x.meta.ulid) hb')
        · intro h
          exact Or.inl ((hiff' b' hb').mpr h)
      rcases hs : (sync env remote b).2 with _ | er
      · rw [show syncLoop env hup (b :: bs) r' =
            ⟨b.meta.ulid :: (syncLoop env hup bs (r' ++ uploadedPaths (sync env remote b).1)).uploaded,
             (syncLoop env hup bs (r' ++ uploadedPaths (sync env remote b).1)).remote,
             (sync env remote b).1 ++
               (syncLoop env hup bs (r' ++ uploadedPaths (sync env remote b).1)).trace⟩ from by
          simp [syncLoop, hb, hcong, hs]]
        rw [ih _ hnd' hext]
        simp [keeps, blockAdds, blockTrace, hb, hs, List.filter_cons, List.append_assoc]
      · rw [show syncLoop env hup (b :: bs) r' =
            ⟨(syncLoop env hup bs (r' ++ uploadedPaths (sync env remote b).1)).uploaded,
             (syncLoop env hup bs (r' ++ uploadedPaths (sync env remote b).1)).remote,
             (sync env remote b).1 ++ Effect.logError b.meta.ulid ::
               (syncLoop env hup bs (r' ++ uploadedPaths (sync env remote b).1)).trace⟩ from by
          simp [syncLoop, hb, hcong, hs]]
        rw [ih _ hnd' hext]
        simp [keeps, blockAdds, blockTrace, hb, hs, List.filter_cons, List.append_assoc]




theorem sync_trace_blockId (env : Env) (r : List ObjPath) (b : LocalBlock) :
    ∀ e ∈ (sync env r b).1, e.blockId = b.meta.ulid := by
  intro e he
  unfold sync at he
  split_ifs at he <;> try split at he
  all_goals (cases e <;> simp_all [Effect.blockId, mem_take_map])

theorem blockTrace_blockId (env : Env) (hup : List String) (remote : List ObjPath)
    (b : LocalBlock) : ∀ e ∈ blockTrace env hup remote b, e.blockId = b.meta.ulid := by
  intro e he
  unfold blockTrace at he
  split_ifs at he with hb
  · simp at he
  · split at he
    · rw [List.mem_append] at he
      rcases he with he | he
      · exact sync_trace_blockId env remote b e he
      · simp only [List.mem_singleton] at he
        subst he; rfl
    · exact sync_trace_blockId env remote b e he

theorem mem_map_filter_iff {blocks : List LocalBlock} {p : LocalBlock → Bool}
    {b : LocalBlock} (hnd : (blocks.map fun x => x.meta.ulid).Nodup)
    (hb : b ∈ blocks) :
    b.meta.ulid ∈ (blocks.filter p).map (fun x => x.meta.ulid) ↔ p b = true := by
  constructor
  · intro h
    rw [List.mem_map] at h
    obtain ⟨b', hb', hid⟩ := h
    rw [List.mem_filter] at hb'
    have : b' = b := List.inj_on_of_nodup_map hnd hb'.1 hb hid
    exact this ▸ hb'.2
  · intro h
    exact List.mem_map_of_mem _ (List.mem_filter.mpr ⟨hb, h⟩)

theorem mem_trace_flatten {env : Env} {hup : List String} {remote : List ObjPath}
    {blocks : List LocalBlock} {e : Effect}
    (he : e ∈ (blocks.map (blockTrace env hup remote)).flatten) :
    ∃ b ∈ blocks, e ∈ blockTrace env hup remote b := by
  rw [List.mem_flatten] at he
  obtain ⟨l, hl, hel⟩ := he
  rw [List.mem_map] at hl
  obtain ⟨b, hb, rfl⟩ := hl
  exact ⟨b, hb, hel⟩

theorem foldl_min_le_init (l : List Int) (a : Int) : l.foldl min a ≤ a := by
  induction l generalizing a with
  | nil => exact le_refl a
  | cons x xs ih => exact le_trans (ih (min a x)) (min_le_left a x)

theorem foldl_min_le_mem (l : List Int) (a : Int) {x : Int} (hx : x ∈ l) :
    l.foldl min a ≤ x := by
  induction l generalizing a with
  | nil => simp at hx
  | cons y ys ih =>
    rcases List.mem_cons.mp hx with rfl | hx'
    · exact le_trans (foldl_min_le_init ys (min a x)) (min_le_right a x)
    · exact ih (min a y) hx'

theorem foldl_min_eq_init_or_mem (l : List Int) (a : Int) :
    l.foldl min a = a ∨ l.foldl min a ∈ l := by
  induction l generalizing a with
  | nil => exact Or.inl rfl
  | cons y ys ih =>
    rcases ih (min a y) with h | h
    · rcases min_choice a y with hm | hm
      · exact Or.inl (by rw [List.foldl_cons, h, hm])
      · exact Or.inr (by rw [List.foldl_cons, h, hm]; exact List.mem_cons_self y ys)
    · exact Or.inr (List.mem_cons_of_mem y h)

theorem foldl_max_init_le (l : List Int) (a : Int) : a ≤ l.foldl max a := by
  induction l generalizing a with
  | nil => exact le_refl a
  | cons x xs ih => exact le_trans (le_max_left a x) (ih (max a x))

theorem foldl_max_mem_le (l : List Int) (a : Int) {x : Int} (hx : x ∈ l) :
    x ≤ l.foldl max a := by
  induction l generalizing a with
  | nil => simp at hx
  | cons y ys ih =>
    rcases List.mem_cons.mp hx with rfl | hx'
    · exact le_trans (le_max_right a x) (foldl_max_init_le ys (max a x))
    · exact ih (max a y) hx'

theorem foldl_max_eq_init_or_mem (l : List Int) (a : Int) :
    l.foldl max a = a ∨ l.foldl max a ∈ l := by
  induction l generalizing a with
  | nil => exact Or.inl rfl
  | cons y ys ih =>
    rcases ih (max a y) with h | h
    · rcases max_choice a y with hm | hm
      · exact Or.inl (by rw [List.foldl_cons, h, hm])
      · exact Or.inr (by rw [List.foldl_cons, h, hm]; exact List.mem_cons_self y ys)
    · exact Or.inr (List.mem_cons_of_mem y h)

theorem timestampsFold_eq (hup : List String) :
    ∀ (bs : List LocalBlock) (mn mx : Int),
      timestampsFold hup bs mn mx =
        ((bs.map fun b => b.meta.minTime).foldl min mn,
         ((bs.filter fun b => decide (b.meta.ulid ∈ hup)).map
            fun b => b.meta.maxTime).foldl max mx) := by
  intro bs
  induction bs with
  | nil => intro mn mx; simp [timestampsFold]
  | cons b bs ih =>
    intro mn mx
    have h1 : (if b.meta.minTime < mn then b.meta.minTime else mn) = min mn b.meta.minTime := by
      rcases lt_or_le b.meta.minTime mn with h | h
      · rw [if_pos h, min_eq_right h.le]
      · rw [if_neg (not_lt.mpr h), min_eq_left h]
    by_cases hm : b.meta.ulid ∈ hup
    · have h2 : (if decide (b.meta.ulid ∈ hup) && decide (b.meta.maxTime > mx)
          then b.meta.maxTime else mx) = max mx b.meta.maxTime := by
        rcases lt_or_le mx b.meta.maxTime with h | h
        · simp [hm, h, max_eq_right h.le]
        · simp [hm, not_lt.mpr h, max_eq_left h]
      rw [timestampsFold, ih, h1, h2]
      simp [List.filter_cons, hm]
    · have h2 : (if decide (b.meta.ulid ∈ hup) && decide (b.meta.maxTime > mx)
          then b.meta.maxTime else mx) = mx := by simp [hm]
      rw [timestampsFold, ih, h1, h2]
      simp [List.filter_cons, hm]




theorem runSteps_append (s : FsState) (l₁ l₂ : List WStep) :
    runSteps s (l₁ ++ l₂) = runSteps (runSteps s l₁) l₂ := by
  simp [runSteps, List.foldl_append]

theorem runSteps_target_stable (l : List WStep)
    (h : ∀ st ∈ l, st ≠ WStep.removeTarget ∧ st ≠ WStep.renameTmpToTarget) :
    ∀ s : FsState, (runSteps s l).target = s.target := by
  induction l with
  | nil => intro s; rfl
  | cons st l ih =>
    intro s
    have hstep : runSteps s (st :: l) = runSteps (applyStep s st) l := by
      simp [runSteps]
    have h1 := h st (List.mem_cons_self st l)
    have h2 : (applyStep s st).target = s.target := by
      cases st <;> simp_all [applyStep]
    rw [hstep, ih (fun x hx => h x (List.mem_cons_of_mem st hx)), h2]

theorem runSteps_writeBytes (l : List Nat) :
    ∀ (s : FsState) (t : List Nat), s.tmp = some t →
      runSteps s (l.map WStep.writeByte) = { s with tmp := some (t ++ l) } := by
  induction l with
  | nil =>
    intro s t h
    cases s
    simp_all [runSteps]
  | cons x xs ih =>
    intro s t h
    have hstep : runSteps s (WStep.writeByte x :: xs.map WStep.writeByte)
        = runSteps (applyStep s (WStep.writeByte x)) (xs.map WStep.writeByte) := by
      simp [runSteps]
    have happ : applyStep s (WStep.writeByte x) = { s with tmp := some (t ++ [x]) } := by
      simp [applyStep, h]
    rw [List.map_cons, hstep, happ, ih _ (t ++ [x]) rfl]
    simp




/-- Claim C2: for every block whose compaction level exceeds 1, the
per-block upload procedure returns success immediately — no remote
existence check, no staging directory, no upload — regardless of the
bookkeeping record or remote state; within a whole pass such a block
contributes no effect at all. -/
theorem sync_compaction_filter (env : Env) (remote : List ObjPath) (b : LocalBlock)
    (hlev : b.meta.level > 1) :
    sync env remote b = ([], none)
    ∧ ∀ (hup : List String) (blocks : List LocalBlock),
        (blocks.map fun x => x.meta.ulid).Nodup → b ∈ blocks →
        ∀ e ∈ (syncLoop env hup blocks remote).trace, e.blockId ≠ b.meta.ulid := by
  have h1 : sync env remote b = ([], none) := by
    unfold sync; rw [if_pos hlev]
  refine ⟨h1, ?_⟩
  intro hup blocks hnd hb e he hne
  rw [syncLoop_eq env hup remote blocks remote hnd (fun _ _ => Iff.rfl)] at he
  obtain ⟨b', hb', he'⟩ := mem_trace_flatten he
  have hid := blockTrace_blockId env hup remote b' e he'
  have hbb : b' = b := List.inj_on_of_nodup_map hnd hb' hb (by rw [← hid]; exact hne)
  subst hbb
  unfold blockTrace at he'
  split_ifs at he' with h
  · simp at he'
  · rw [h1] at he'
    simp at he'

/-- Claim C1: for a block of compaction level at most 1 whose ID is not
in the previously-uploaded set, if the remote store (without erroring)
reports that the block's manifest object exists, the per-block upload
procedure returns success having performed only the existence check: no
staging directory is created and no object is written to the remote
store; within the whole pass the block's only effect is that check, and
its ID is appended to the rebuilt uploaded list. -/
theorem sync_remote_exists_no_reupload
    (env : Env) (hup : List String) (remote : List ObjPath)
    (blocks : List LocalBlock) (b : LocalBlock)
    (hnd : (blocks.map fun x => x.meta.ulid).Nodup)
    (hb : b ∈ blocks) (hlev : b.meta.level ≤ 1) (hskip : b.meta.ulid ∉ hup)
    (herr : env.existsErr (metaObjPath b.meta.ulid) = false)
    (hex : metaObjPath b.meta.ulid ∈ remote) :
    sync env remote b = ([Effect.existsCheck b.meta.ulid (metaObjPath b.meta.ulid)], none)
    ∧ b.meta.ulid ∈ (syncLoop env hup blocks remote).uploaded
    ∧ ∀ e ∈ (syncLoop env hup blocks remote).trace,
        e.blockId = b.meta.ulid →
          e = Effect.existsCheck b.meta.ulid (metaObjPath b.meta.ulid) := by
  have h1 : sync env remote b
      = ([Effect.existsCheck b.meta.ulid (metaObjPath b.meta.ulid)], none) := by
    unfold sync
    rw [if_neg (by omega)]
    simp [herr, hex]
  refine ⟨h1, ?_, ?_⟩
  · rw [syncLoop_eq env hup remote blocks remote hnd (fun _ _ => Iff.rfl)]
    exact (mem_map_filter_iff hnd hb).mpr (by simp [keeps, h1])
  · intro e he hid
    rw [syncLoop_eq env hup remote blocks remote hnd (fun _ _ => Iff.rfl)] at he
    obtain ⟨b', hb', he'⟩ := mem_trace_flatten he
    have hid' := blockTrace_blockId env hup remote b' e he'
    have hbb : b' = b := List.inj_on_of_nodup_map hnd hb' hb (by rw [← hid']; exact hid)
    subst hbb
    unfold blockTrace at he'
    rw [if_neg hskip, h1] at he'
    simpa using he'

/-- Claim C10: whenever reading the bookkeeping file fails — including
the file simply not existing — `Timestamps` returns zero timestamps
together with the error, for every possible local block list (so it never
falls back to computing `minTime` from the scanned blocks). -/
theorem Timestamps_read_error (file : MetaFileContent) (e : ReadErr)
    (blocks : List LocalBlock) (h : ReadMetaFile file = .error e) :
    Timestamps file blocks = (0, 0, some e) := by
  unfold Timestamps
  rw [h]

/-- Claim C5: on any bookkeeping read error (not-found, corrupt, version
mismatch), `Sync` does not abort: it proceeds with the empty record of
version 1 and runs the full pass exactly as it would over an empty
previously-uploaded set. -/
theorem Sync_read_error_fallback (env : Env) (blocks : List LocalBlock)
    (remote : List ObjPath) (file : MetaFileContent) (e : ReadErr)
    (h : ReadMetaFile file = .error e) :
    loadedMeta file = ⟨1, []⟩
    ∧ Sync env blocks file remote =
        ⟨⟨1, (syncLoop env [] blocks remote).uploaded⟩,
         (syncLoop env [] blocks remote).remote,
         (syncLoop env [] blocks remote).trace⟩ := by
  have h1 : loadedMeta file = ⟨1, []⟩ := by unfold loadedMeta; rw [h]
  exact ⟨h1, by unfold Sync; rw [h1]⟩

/-- Claim C9: within one block's upload the manifest object is the last
object transferred, so any prefix of the upload sequence that contains
the manifest contains every data file and the index file as well — the
remote store never holds a block's manifest while one of that block's
files is still absent.  (`block.Upload` is modelled from the spec, see
`blockUploadPaths`.) -/
theorem blockUpload_manifest_last (b : LocalBlock) (k : Nat) :
    (blockUploadPaths b).getLast? = some (metaObjPath b.meta.ulid)
    ∧ (metaObjPath b.meta.ulid ∈ (blockUploadPaths b).take k →
        ∀ p ∈ blockUploadPaths b, p ∈ (blockUploadPaths b).take k) := by
  have hsplitpaths : blockUploadPaths b =
      (b.chunkFiles.map (fun fn => [b.meta.ulid, chunksDirname, fn])
        ++ [[b.meta.ulid, indexFilename]]) ++ [metaObjPath b.meta.ulid] := by
    simp [blockUploadPaths]
  constructor
  · rw [hsplitpaths]
    exact List.getLast?_concat _
  · intro hmem p hp
    by_cases hk : (blockUploadPaths b).length ≤ k
    · rw [List.take_of_length_le hk]; exact hp
    · exfalso
      have hlen : (blockUploadPaths b).length = b.chunkFiles.length + 2 := by
        simp [blockUploadPaths]
      rw [hsplitpaths, List.take_append_of_le_length (by simp; omega)] at hmem
      have hmem' := List.take_subset _ _ hmem
      simp only [List.mem_append, List.mem_map, List.not_mem_nil, or_false,
        metaObjPath] at hmem'
      rcases hmem' with ⟨fn, _, hfn⟩ | hix
      · simp [blockMetaFilename, chunksDirname] at hfn
      · simp [blockMetaFilename, indexFilename] at hix




/-- Claim C3: after one `Sync` pass the record handed to `WriteMetaFile`
lists exactly the scanned blocks that are either previously recorded or
whose per-block procedure succeeded this pass (`keeps`); previously
recorded blocks contribute no effect whatsoever (no existence check, no
upload attempt); and every listed ID belongs to a block that still exists
locally (IDs of vanished blocks are dropped). -/
theorem Sync_uploaded_exact (env : Env) (blocks : List LocalBlock)
    (file : MetaFileContent) (remote : List ObjPath)
    (hnd : (blocks.map fun x => x.meta.ulid).Nodup) :
    (Sync env blocks file remote).written.uploaded
      = (blocks.filter (keeps env (loadedMeta file).uploaded remote)).map
          (fun x => x.meta.ulid)
    ∧ (∀ b ∈ blocks, b.meta.ulid ∈ (loadedMeta file).uploaded →
        ∀ e ∈ (Sync env blocks file remote).trace, e.blockId ≠ b.meta.ulid)
    ∧ (∀ id ∈ (Sync env blocks file remote).written.uploaded,
        ∃ b ∈ blocks, b.meta.ulid = id) := by
  have hloop := syncLoop_eq env (loadedMeta file).uploaded remote blocks remote hnd
    (fun _ _ => Iff.rfl)
  refine ⟨?_, ?_, ?_⟩
  · show (syncLoop env (loadedMeta file).uploaded blocks remote).uploaded = _
    rw [hloop]
  · intro b hb hrec e he hne
    have he' : e ∈ (syncLoop env (loadedMeta file).uploaded blocks remote).trace := he
    rw [hloop] at he'
    obtain ⟨b', hb', hmem⟩ := mem_trace_flatten he'
    have hid := blockTrace_blockId env (loadedMeta file).uploaded remote b' e hmem
    have hbb : b' = b := List.inj_on_of_nodup_map hnd hb' hb (by rw [← hid]; exact hne)
    subst hbb
    unfold blockTrace at hmem
    rw [if_pos hrec] at hmem
    simp at hmem
  · intro id hid
    have hid' : id ∈ (syncLoop env (loadedMeta file).uploaded blocks remote).uploaded := hid
    rw [hloop] at hid'
    rw [List.mem_map] at hid'
    obtain ⟨b, hb, rfl⟩ := hid'
    exact ⟨b, (List.mem_filter.mp hb).1, rfl⟩

/-- Claim C4: when the per-block procedure fails for a block during a
pass, the failure is logged, the block's ID is not appended to the new
uploaded list, and every other block is processed exactly as usual — no
per-block failure aborts the pass. -/
theorem Sync_block_failure_isolated (env : Env) (hup : List String)
    (remote : List ObjPath) (blocks : List LocalBlock) (b : LocalBlock) (er : SyncErr)
    (hnd : (blocks.map fun x => x.meta.ulid).Nodup)
    (hb : b ∈ blocks) (hskip : b.meta.ulid ∉ hup)
    (hfail : (sync env remote b).2 = some er) :
    b.meta.ulid ∉ (syncLoop env hup blocks remote).uploaded
    ∧ Effect.logError b.meta.ulid ∈ (syncLoop env hup blocks remote).trace
    ∧ (∀ b' ∈ blocks, b' ≠ b →
        (b'.meta.ulid ∈ (syncLoop env hup blocks remote).uploaded ↔
          (b'.meta.ulid ∈ hup ∨ (sync env remote b').2 = none))) := by
  have hloop := syncLoop_eq env hup remote blocks remote hnd (fun _ _ => Iff.rfl)
  refine ⟨?_, ?_, ?_⟩
  · rw [hloop]
    intro hmem
    have := (mem_map_filter_iff hnd hb).mp hmem
    simp [keeps, hskip, hfail] at this
  · rw [hloop]
    show Effect.logError b.meta.ulid ∈ (blocks.map (blockTrace env hup remote)).flatten
    rw [List.mem_flatten]
    refine ⟨blockTrace env hup remote b, List.mem_map_of_mem _ hb, ?_⟩
    unfold blockTrace
    rw [if_neg hskip, hfail]
    simp
  · intro b' hb' _
    rw [hloop]
    rw [mem_map_filter_iff hnd hb']
    unfold keeps
    constructor
    · intro h
      rcases Bool.or_eq_true_iff.mp h with h | h
      · exact Or.inl (of_decide_eq_true h)
      · exact Or.inr (Option.isNone_iff_eq_none.mp h)
    · intro h
      rcases h with h | h
      · exact Bool.or_eq_true_iff.mpr (Or.inl (decide_eq_true h))
      · exact Bool.or_eq_true_iff.mpr (Or.inr (Option.isNone_iff_eq_none.mpr h))




/-- Claim C6 (amended): when the bookkeeping record loads, `Timestamps`
returns `minTime` equal to the minimum start timestamp over the scanned
blocks — except that it returns 0 when no block exists or when every
scanned block's start timestamp equals the sentinel 2^63 − 1 (the
original claim fails in that corner, see `Timestamps_sentinel_cex`) —
and `maxSyncedTime` equal to the maximum end timestamp over the recorded
scanned blocks, or the sentinel −2^63 when none is recorded, with no
error. -/
theorem Timestamps_amended (file : MetaFileContent) (m : Meta) (blocks : List LocalBlock)
    (hread : ReadMetaFile file = .ok m)
    (hrange : ∀ b ∈ blocks, minInt64 ≤ b.meta.maxTime) :
    ((blocks = [] → (Timestamps file blocks).1 = 0)
      ∧ ((∃ b ∈ blocks, b.meta.minTime < maxInt64) →
          (∃ b0 ∈ blocks, (Timestamps file blocks).1 = b0.meta.minTime)
          ∧ ∀ b ∈ blocks, (Timestamps file blocks).1 ≤ b.meta.minTime)
      ∧ ((blocks ≠ [] ∧ ∀ b ∈ blocks, b.meta.minTime = maxInt64) →
          (Timestamps file blocks).1 = 0))
    ∧ (((blocks.filter fun b => decide (b.meta.ulid ∈ m.uploaded)) = [] →
          (Timestamps file blocks).2.1 = minInt64)
      ∧ ((blocks.filter fun b => decide (b.meta.ulid ∈ m.uploaded)) ≠ [] →
          (∃ b0 ∈ blocks, b0.meta.ulid ∈ m.uploaded
            ∧ (Timestamps file blocks).2.1 = b0.meta.maxTime)
          ∧ ∀ b ∈ blocks, b.meta.ulid ∈ m.uploaded →
              b.meta.maxTime ≤ (Timestamps file blocks).2.1))
    ∧ (Timestamps file blocks).2.2 = none := by
  have hts : Timestamps file blocks =
      ((if (blocks.map fun b => b.meta.minTime).foldl min maxInt64 = maxInt64 then 0
        else (blocks.map fun b => b.meta.minTime).foldl min maxInt64),
       ((blocks.filter fun b => decide (b.meta.ulid ∈ m.uploaded)).map
          fun b => b.meta.maxTime).foldl max minInt64,
       none) := by
    unfold Timestamps
    rw [hread]
    simp only [timestampsFold_eq]
  rw [hts]
  refine ⟨⟨?_, ?_, ?_⟩, ⟨?_, ?_⟩, rfl⟩
  · rintro rfl
    simp
  · rintro ⟨b, hb, hlt⟩
    have hle : (blocks.map fun b => b.meta.minTime).foldl min maxInt64 ≤ b.meta.minTime :=
      foldl_min_le_mem _ _ (List.mem_map_of_mem _ hb)
    have hne : (blocks.map fun b => b.meta.minTime).foldl min maxInt64 ≠ maxInt64 := by
      intro h
      rw [h] at hle
      omega
    rw [if_neg hne]
    constructor
    · rcases foldl_min_eq_init_or_mem (blocks.map fun b => b.meta.minTime) maxInt64 with h | h
      · exact absurd h hne
      · rw [List.mem_map] at h
        obtain ⟨b0, hb0, hmin⟩ := h
        exact ⟨b0, hb0, hmin.symm⟩
    · intro b' hb'
      exact foldl_min_le_mem _ _ (List.mem_map_of_mem _ hb')
  · rintro ⟨hne, hall⟩
    have : (blocks.map fun b => b.meta.minTime).foldl min maxInt64 = maxInt64 := by
      rcases foldl_min_eq_init_or_mem (blocks.map fun b => b.meta.minTime) maxInt64 with h | h
      · exact h
      · rw [List.mem_map] at h
        obtain ⟨b0, hb0, hmin⟩ := h
        rw [← hmin]
        exact hall b0 hb0
    rw [if_pos this]
  · intro hfe
    rw [hfe]
    simp
  · intro hfe
    have hx := foldl_max_eq_init_or_mem
      ((blocks.filter fun b => decide (b.meta.ulid ∈ m.uploaded)).map
        fun b => b.meta.maxTime) minInt64
    have hmemcase : ((blocks.filter fun b => decide (b.meta.ulid ∈ m.uploaded)).map
          fun b => b.meta.maxTime).foldl max minInt64 ∈
        (blocks.filter fun b => decide (b.meta.ulid ∈ m.uploaded)).map
          fun b => b.meta.maxTime := by
      rcases hx with h | h
      · obtain ⟨b1, hb1⟩ := List.exists_mem_of_ne_nil _ hfe
        have hb1' : b1.meta.maxTime ∈
            (blocks.filter fun b => decide (b.meta.ulid ∈ m.uploaded)).map
              fun b => b.meta.maxTime := List.mem_map_of_mem _ hb1
        have hub := foldl_max_mem_le _ minInt64 hb1'
        have hlb := hrange b1 (List.mem_filter.mp hb1).1
        rw [h] at hub ⊢
        have : b1.meta.maxTime = minInt64 := le_antisymm hub hlb
        rw [← this]
        exact hb1'
      · exact h
    constructor
    · rw [List.mem_map] at hmemcase
      obtain ⟨b0, hb0, hmax⟩ := hmemcase
      have hb0' := List.mem_filter.mp hb0
      exact ⟨b0, hb0'.1, of_decide_eq_true hb0'.2, hmax.symm⟩
    · intro b hb hrec
      exact foldl_max_mem_le _ minInt64
        (List.mem_map_of_mem _ (List.mem_filter.mpr ⟨hb, decide_eq_true hrec⟩))

/-- Claim C6 counterexample: with a single scanned block whose start
timestamp is exactly 2^63 − 1 (a valid int64), the minimum start
timestamp over the scanned blocks equals 2^63 − 1 yet `Timestamps`
returns 0, because the code cannot distinguish that value from its
untouched `math.MaxInt64` accumulator.  This falsifies the claim that
`minTime` always equals the minimum over a nonempty block list. -/
theorem Timestamps_sentinel_cex :
    Timestamps (.valid 1 []) [⟨⟨"B", maxInt64, maxInt64, 1⟩, []⟩] = (0, minInt64, none)
    ∧ ([(⟨⟨"B", maxInt64, maxInt64, 1⟩, []⟩ : LocalBlock)] : List LocalBlock) ≠ []
    ∧ (∀ b ∈ ([(⟨⟨"B", maxInt64, maxInt64, 1⟩, []⟩ : LocalBlock)] : List LocalBlock),
        b.meta.minTime = maxInt64)
    ∧ (0 : Int) ≠ maxInt64 := by
  refine ⟨by decide, by decide, by decide, by decide⟩




theorem loadedMeta_version (file : MetaFileContent) : (loadedMeta file).version = 1 := by
  unfold loadedMeta ReadMetaFile
  cases file with
  | absent => rfl
  | corrupt => rfl
  | valid v ids =>
    by_cases h : v = 1
    · subst h; simp
    · simp [h]

theorem syncLoop_all_recorded (env : Env) (blocks : List LocalBlock)
    (hup : List String) (rem : List ObjPath)
    (hnd : (blocks.map fun x => x.meta.ulid).Nodup)
    (hmem : ∀ b ∈ blocks, b.meta.ulid ∈ hup) :
    syncLoop env hup blocks rem = ⟨blocks.map (fun x => x.meta.ulid), rem, []⟩ := by
  rw [syncLoop_eq env hup rem blocks rem hnd (fun _ _ => Iff.rfl)]
  have hfe : blocks.filter (keeps env hup rem) = blocks := by
    apply List.filter_eq_self.mpr
    intro b hb
    unfold keeps
    rw [Bool.or_eq_true_iff]
    exact Or.inl (decide_eq_true (hmem b hb))
  have hadds : (blocks.map (blockAdds env hup rem)).flatten = [] := by
    rw [List.flatten_eq_nil_iff]
    intro l hl
    rw [List.mem_map] at hl
    obtain ⟨b, hb, rfl⟩ := hl
    exact if_pos (hmem b hb)
  have htr : (blocks.map (blockTrace env hup rem)).flatten = [] := by
    rw [List.flatten_eq_nil_iff]
    intro l hl
    rw [List.mem_map] at hl
    obtain ⟨b, hb, rfl⟩ := hl
    exact if_pos (hmem b hb)
  rw [hfe, hadds, htr, List.append_nil]

/-- Claim C7 (amended): calling `Sync` twice with no change to the local
blocks, the remote store, or the bookkeeping file between the calls, and
with every local block's ID present in the record written by the first
call (every per-block procedure succeeded), makes the second call perform
no per-block work at all — its effect trace is empty, so no existence
checks, staging, or upload attempts — and write a bookkeeping record and
leave a remote state identical to the first call's. -/
theorem Sync_idempotent_after_success (env : Env) (blocks : List LocalBlock)
    (file : MetaFileContent) (remote : List ObjPath)
    (hnd : (blocks.map fun x => x.meta.ulid).Nodup)
    (hall : ∀ b ∈ blocks, b.meta.ulid ∈ (Sync env blocks file remote).written.uploaded) :
    Sync env blocks
        (.valid (Sync env blocks file remote).written.version
                (Sync env blocks file remote).written.uploaded)
        (Sync env blocks file remote).remote
      = ⟨(Sync env blocks file remote).written, (Sync env blocks file remote).remote, []⟩ := by
  have hloop1 := syncLoop_eq env (loadedMeta file).uploaded remote blocks remote hnd
    (fun _ _ => Iff.rfl)
  have hup1 : (syncLoop env (loadedMeta file).uploaded blocks remote).uploaded
      = blocks.map (fun x => x.meta.ulid) := by
    rw [hloop1]
    have hfe : blocks.filter (keeps env (loadedMeta file).uploaded remote) = blocks := by
      apply List.filter_eq_self.mpr
      intro b hb
      have h2 : b.meta.ulid ∈ (syncLoop env (loadedMeta file).uploaded blocks remote).uploaded :=
        hall b hb
      rw [hloop1] at h2
      exact (mem_map_filter_iff hnd hb).mp h2
    rw [hfe]
  have hw : (Sync env blocks file remote).written
      = ⟨1, blocks.map (fun x => x.meta.ulid)⟩ := by
    show (⟨(loadedMeta file).version,
      (syncLoop env (loadedMeta file).uploaded blocks remote).uploaded⟩ : Meta) = _
    rw [loadedMeta_version file, hup1]
  have hrem : (Sync env blocks file remote).remote
      = (syncLoop env (loadedMeta file).uploaded blocks remote).remote := rfl
  have hm2 : loadedMeta (.valid (1 : Nat) (blocks.map fun x => x.meta.ulid))
      = ⟨1, blocks.map fun x => x.meta.ulid⟩ := by
    unfold loadedMeta ReadMetaFile
    simp
  have hrecorded := syncLoop_all_recorded env blocks (blocks.map fun x => x.meta.ulid)
    ((syncLoop env (loadedMeta file).uploaded blocks remote).remote) hnd
    (fun b hb => List.mem_map_of_mem _ hb)
  rw [hw, hrem]
  show (⟨⟨(loadedMeta (.valid 1 (blocks.map fun x => x.meta.ulid))).version,
      (syncLoop env (loadedMeta (.valid 1 (blocks.map fun x => x.meta.ulid))).uploaded blocks
        (syncLoop env (loadedMeta file).uploaded blocks remote).remote).uploaded⟩,
    (syncLoop env (loadedMeta (.valid 1 (blocks.map fun x => x.meta.ulid))).uploaded blocks
        (syncLoop env (loadedMeta file).uploaded blocks remote).remote).remote,
    (syncLoop env (loadedMeta (.valid 1 (blocks.map fun x => x.meta.ulid))).uploaded blocks
        (syncLoop env (loadedMeta file).uploaded blocks remote).remote).trace⟩ : SyncResult)
      = ⟨⟨1, blocks.map fun x => x.meta.ulid⟩,
         (syncLoop env (loadedMeta file).uploaded blocks remote).remote, []⟩
  simp only [hm2, hrecorded]




/-- Claim C7 counterexample: a block whose `block.Upload` persistently
fails after one transferred object is retried by the second `Sync` call —
the second call's trace contains an object upload — even though nothing
(local tree, remote store, bookkeeping file) changed between the calls:
the second call receives exactly the record written by the first call and
the remote state left by it.  This falsifies "no upload attempts in the
second call". -/
theorem cexSecondPass_upload :
    Effect.uploadObject "B" ["B", "chunks", "c1"] ∈
      (Sync ⟨fun _ => false, fun _ => false, fun _ => false, fun _ => false,
             fun _ => false, fun _ => some 1⟩ [⟨⟨"B", 0, 1, 1⟩, ["c1"]⟩]
        (.valid (Sync ⟨fun _ => false, fun _ => false, fun _ => false, fun _ => false,
             fun _ => false, fun _ => some 1⟩ [⟨⟨"B", 0, 1, 1⟩, ["c1"]⟩] .absent []).written.version
                (Sync ⟨fun _ => false, fun _ => false, fun _ => false, fun _ => false,
             fun _ => false, fun _ => some 1⟩ [⟨⟨"B", 0, 1, 1⟩, ["c1"]⟩] .absent []).written.uploaded)
        (Sync ⟨fun _ => false, fun _ => false, fun _ => false, fun _ => false,
             fun _ => false, fun _ => some 1⟩ [⟨⟨"B", 0, 1, 1⟩, ["c1"]⟩] .absent []).remote).trace := by
  decide

/-- Claim C8 counterexample: crashing right after the `os.RemoveAll(to)`
step of `renameFile` (micro-step 4 when writing one byte over an existing
one-byte file) leaves no file at the target path — the target is neither
the intact old file nor the intact new file, falsifying "at every point,
either the old file is fully intact or the new file is fully intact". -/
theorem crash_window_cex :
    (crashState (some [1]) [2] 4).target = none
    ∧ (crashState (some [1]) [2] 4).target ≠ some [1]
    ∧ (crashState (some [1]) [2] 4).target ≠ some [2] := by
  refine ⟨by decide, by decide, by decide⟩

/-- Claim C8 (amended): the bookkeeping writer follows the temp-file
algorithm (serialize to `<target>.tmp`, close, remove the target, rename
the temp file onto the target, fsync the parent directory), and at every
crash point the target path holds the old content in full, the new
content in full, or no file at all — never a partial file.  The no-file
state occurs only in the window after the removal and before the rename
(the claim's stronger "old intact or new intact" contract fails exactly
there, see `crash_window_cex`): up to the removal the old file is intact,
and from the rename on the new file is intact. -/
theorem crash_target_cases (old : Option (List Nat)) (content : List Nat) (k : Nat) :
    ((k ≤ content.length + 2 → (crashState old content k).target = old)
      ∧ (k = content.length + 3 → (crashState old content k).target = none)
      ∧ (content.length + 4 ≤ k → (crashState old content k).target = some content))
    ∧ ((crashState old content k).target = old ∨ (crashState old content k).target = none
        ∨ (crashState old content k).target = some content) := by
  have hsplit : writeMetaFileSteps content =
      (WStep.createTmp :: (content.map WStep.writeByte ++ [WStep.closeTmp]))
        ++ [WStep.removeTarget, WStep.renameTmpToTarget, WStep.fsyncDir] := by
    simp [writeMetaFileSteps]
  have hAlen : (WStep.createTmp :: (content.map WStep.writeByte ++ [WStep.closeTmp])).length
      = content.length + 2 := by simp
  have hAstable : ∀ st ∈ WStep.createTmp :: (content.map WStep.writeByte ++ [WStep.closeTmp]),
      st ≠ WStep.removeTarget ∧ st ≠ WStep.renameTmpToTarget := by
    intro st hst
    simp only [List.mem_cons, List.mem_append, List.mem_map, List.not_mem_nil,
      or_false] at hst
    rcases hst with rfl | ⟨x, _, rfl⟩ | rfl <;> exact ⟨by simp, by simp⟩
  have hafterA : runSteps ⟨old, none, false⟩
      (WStep.createTmp :: (content.map WStep.writeByte ++ [WStep.closeTmp]))
      = ⟨old, some content, false⟩ := by
    have h1 : runSteps ⟨old, none, false⟩
        (WStep.createTmp :: (content.map WStep.writeByte ++ [WStep.closeTmp]))
        = runSteps (⟨old, some [], false⟩ : FsState)
            (content.map WStep.writeByte ++ [WStep.closeTmp]) := by
      simp [runSteps, applyStep]
    rw [h1, runSteps_append, runSteps_writeBytes content _ [] rfl]
    simp [runSteps, applyStep]
  have hmain : (k ≤ content.length + 2 → (crashState old content k).target = old)
      ∧ (k = content.length + 3 → (crashState old content k).target = none)
      ∧ (content.length + 4 ≤ k → (crashState old content k).target = some content) := by
    refine ⟨?_, ?_, ?_⟩
    · intro hk
      unfold crashState
      rw [hsplit, List.take_append_of_le_length (by rw [hAlen]; exact hk)]
      exact runSteps_target_stable _
        (fun st hst => hAstable st (List.mem_of_mem_take hst)) _
    · intro hk
      unfold crashState
      have : k = (WStep.createTmp :: (content.map WStep.writeByte ++ [WStep.closeTmp])).length + 1 := by
        rw [hAlen]; omega
      rw [hsplit, this, List.take_append]
      rw [runSteps_append, hafterA]
      simp [runSteps, applyStep]
    · intro hk
      unfold crashState
      have hk' : k = (WStep.createTmp :: (content.map WStep.writeByte ++ [WStep.closeTmp])).length
          + (k - (content.length + 2)) := by rw [hAlen]; omega
      rw [hsplit, hk', List.take_append, runSteps_append, hafterA]
      rcases Nat.lt_or_ge (k - (content.length + 2)) 3 with hj | hj
      · have : k - (content.length + 2) = 2 := by omega
        rw [this]
        simp [runSteps, applyStep]
      · rw [List.take_of_length_le (by simp; omega)]
        simp [runSteps, applyStep]
  refine ⟨hmain, ?_⟩
  rcases Nat.lt_or_ge k (content.length + 3) with hk | hk
  · exact Or.inl (hmain.1 (by omega))
  · rcases Nat.lt_or_ge k (content.length + 4) with hk2 | hk2
    · exact Or.inr (Or.inl (hmain.2.1 (by omega)))
    · exact Or.inr (Or.inr (hmain.2.2 hk2))





/-- Witness for C1 at a concrete block, environment and remote state. -/
theorem sync_remote_exists_no_reupload_w :
    (([⟨⟨"B", 0, 1, 1⟩, []⟩] : List LocalBlock).map fun x => x.meta.ulid).Nodup
    ∧ sync ⟨fun _ => false, fun _ => false, fun _ => false, fun _ => false,
          fun _ => false, fun _ => none⟩ [metaObjPath "B"] ⟨⟨"B", 0, 1, 1⟩, []⟩
        = ([Effect.existsCheck "B" (metaObjPath "B")], none)
    ∧ "B" ∈ (syncLoop ⟨fun _ => false, fun _ => false, fun _ => false, fun _ => false,
          fun _ => false, fun _ => none⟩ [] [⟨⟨"B", 0, 1, 1⟩, []⟩] [metaObjPath "B"]).uploaded :=
  ⟨by decide,
   (sync_remote_exists_no_reupload _ [] [metaObjPath "B"] [⟨⟨"B", 0, 1, 1⟩, []⟩]
      ⟨⟨"B", 0, 1, 1⟩, []⟩ (by decide) (by decide) (by decide) (by decide)
      (by decide) (by decide)).1,
   (sync_remote_exists_no_reupload _ [] [metaObjPath "B"] [⟨⟨"B", 0, 1, 1⟩, []⟩]
      ⟨⟨"B", 0, 1, 1⟩, []⟩ (by decide) (by decide) (by decide) (by decide)
      (by decide) (by decide)).2.1⟩

/-- Witness for C2 at a concrete level-2 block. -/
theorem sync_compaction_filter_w :
    (⟨⟨"C", 0, 1, 2⟩, []⟩ : LocalBlock).meta.level > 1
    ∧ sync ⟨fun _ => false, fun _ => false, fun _ => false, fun _ => false,
          fun _ => false, fun _ => none⟩ [] ⟨⟨"C", 0, 1, 2⟩, []⟩ = ([], none) :=
  ⟨by decide,
   (sync_compaction_filter _ [] ⟨⟨"C", 0, 1, 2⟩, []⟩ (by decide)).1⟩

/-- Witness for C3 at a concrete two-block pass with one recorded block. -/
theorem Sync_uploaded_exact_w :
    (([⟨⟨"B1", 100, 200, 1⟩, []⟩, ⟨⟨"B2", 50, 150, 2⟩, []⟩] : List LocalBlock).map
        fun x => x.meta.ulid).Nodup
    ∧ (Sync ⟨fun _ => false, fun _ => false, fun _ => false, fun _ => false,
          fun _ => false, fun _ => none⟩
        [⟨⟨"B1", 100, 200, 1⟩, []⟩, ⟨⟨"B2", 50, 150, 2⟩, []⟩] (.valid 1 ["B1"]) []).written.uploaded
      = (([⟨⟨"B1", 100, 200, 1⟩, []⟩, ⟨⟨"B2", 50, 150, 2⟩, []⟩] : List LocalBlock).filter
          (keeps ⟨fun _ => false, fun _ => false, fun _ => false, fun _ => false,
            fun _ => false, fun _ => none⟩ (loadedMeta (.valid 1 ["B1"])).uploaded [])).map
          (fun x => x.meta.ulid) :=
  ⟨by decide,
   (Sync_uploaded_exact _ [⟨⟨"B1", 100, 200, 1⟩, []⟩, ⟨⟨"B2", 50, 150, 2⟩, []⟩]
      (.valid 1 ["B1"]) [] (by decide)).1⟩

/-- Witness for C4 with a concrete hard-link failure on one of two blocks. -/
theorem Sync_block_failure_isolated_w :
    (sync ⟨fun _ => false, fun _ => false, fun _ => false, fun id => id == "B",
          fun _ => false, fun _ => none⟩ [] ⟨⟨"B", 0, 1, 1⟩, []⟩).2 = some .hardLinkBlock
    ∧ "B" ∉ (syncLoop ⟨fun _ => false, fun _ => false, fun _ => false, fun id => id == "B",
          fun _ => false, fun _ => none⟩ []
          [⟨⟨"B", 0, 1, 1⟩, []⟩, ⟨⟨"C", 2, 3, 1⟩, []⟩] []).uploaded
    ∧ Effect.logError "B" ∈ (syncLoop ⟨fun _ => false, fun _ => false, fun _ => false,
          fun id => id == "B", fun _ => false, fun _ => none⟩ []
          [⟨⟨"B", 0, 1, 1⟩, []⟩, ⟨⟨"C", 2, 3, 1⟩, []⟩] []).trace :=
  ⟨by decide,
   (Sync_block_failure_isolated _ [] [] [⟨⟨"B", 0, 1, 1⟩, []⟩, ⟨⟨"C", 2, 3, 1⟩, []⟩]
      ⟨⟨"B", 0, 1, 1⟩, []⟩ .hardLinkBlock (by decide) (by decide) (by decide) (by decide)).1,
   (Sync_block_failure_isolated _ [] [] [⟨⟨"B", 0, 1, 1⟩, []⟩, ⟨⟨"C", 2, 3, 1⟩, []⟩]
      ⟨⟨"B", 0, 1, 1⟩, []⟩ .hardLinkBlock (by decide) (by decide) (by decide) (by decide)).2.1⟩

/-- Witness for C5 at a concrete version-mismatch bookkeeping file. -/
theorem Sync_read_error_fallback_w :
    ReadMetaFile (.valid 2 ["X"]) = .error (.versionMismatch 2)
    ∧ loadedMeta (.valid 2 ["X"]) = ⟨1, []⟩ :=
  ⟨rfl,
   (Sync_read_error_fallback ⟨fun _ => false, fun _ => false, fun _ => false,
      fun _ => false, fun _ => false, fun _ => none⟩ [⟨⟨"B", 0, 1, 1⟩, []⟩] []
      (.valid 2 ["X"]) (.versionMismatch 2) rfl).1⟩

/-- Witness for C6 at the spec's scenario: blocks B1 and B2 give (50, 200). -/
theorem Timestamps_amended_w :
    ReadMetaFile (.valid 1 ["B1"]) = .ok ⟨1, ["B1"]⟩
    ∧ (∀ b ∈ ([⟨⟨"B1", 100, 200, 1⟩, []⟩, ⟨⟨"B2", 50, 150, 2⟩, []⟩] : List LocalBlock),
        minInt64 ≤ b.meta.maxTime)
    ∧ Timestamps (.valid 1 ["B1"]) [⟨⟨"B1", 100, 200, 1⟩, []⟩, ⟨⟨"B2", 50, 150, 2⟩, []⟩]
        = (50, 200, none)
    ∧ (∀ b ∈ ([⟨⟨"B1", 100, 200, 1⟩, []⟩, ⟨⟨"B2", 50, 150, 2⟩, []⟩] : List LocalBlock),
        (Timestamps (.valid 1 ["B1"])
          [⟨⟨"B1", 100, 200, 1⟩, []⟩, ⟨⟨"B2", 50, 150, 2⟩, []⟩]).1 ≤ b.meta.minTime) :=
  ⟨rfl, by decide, by decide,
   ((Timestamps_amended (.valid 1 ["B1"]) ⟨1, ["B1"]⟩
      [⟨⟨"B1", 100, 200, 1⟩, []⟩, ⟨⟨"B2", 50, 150, 2⟩, []⟩] rfl
      (by decide)).1.2.1 ⟨⟨⟨"B2", 50, 150, 2⟩, []⟩, by decide, by decide⟩).2⟩

/-- Witness for C7 at a concrete one-block pass whose first call succeeds. -/
theorem Sync_idempotent_after_success_w :
    (∀ b ∈ ([⟨⟨"B", 0, 1, 1⟩, []⟩] : List LocalBlock),
      b.meta.ulid ∈ (Sync ⟨fun _ => false, fun _ => false, fun _ => false, fun _ => false,
          fun _ => false, fun _ => none⟩ [⟨⟨"B", 0, 1, 1⟩, []⟩] .absent []).written.uploaded)
    ∧ Sync ⟨fun _ => false, fun _ => false, fun _ => false, fun _ => false,
          fun _ => false, fun _ => none⟩ [⟨⟨"B", 0, 1, 1⟩, []⟩]
        (.valid (Sync ⟨fun _ => false, fun _ => false, fun _ => false, fun _ => false,
              fun _ => false, fun _ => none⟩ [⟨⟨"B", 0, 1, 1⟩, []⟩] .absent []).written.version
            (Sync ⟨fun _ => false, fun _ => false, fun _ => false, fun _ => false,
              fun _ => false, fun _ => none⟩ [⟨⟨"B", 0, 1, 1⟩, []⟩] .absent []).written.uploaded)
        (Sync ⟨fun _ => false, fun _ => false, fun _ => false, fun _ => false,
          fun _ => false, fun _ => none⟩ [⟨⟨"B", 0, 1, 1⟩, []⟩] .absent []).remote
      = ⟨(Sync ⟨fun _ => false, fun _ => false, fun _ => false, fun _ => false,
            fun _ => false, fun _ => none⟩ [⟨⟨"B", 0, 1, 1⟩, []⟩] .absent []).written,
         (Sync ⟨fun _ => false, fun _ => false, fun _ => false, fun _ => false,
            fun _ => false, fun _ => none⟩ [⟨⟨"B", 0, 1, 1⟩, []⟩] .absent []).remote, []⟩ :=
  ⟨by decide,
   Sync_idempotent_after_success _ [⟨⟨"B", 0, 1, 1⟩, []⟩] .absent [] (by decide) (by decide)⟩

/-- Witness for C8 at a concrete one-byte write over an existing file. -/
theorem crash_target_cases_w :
    (2 ≤ ([3] : List Nat).length + 2 ∧ (crashState (some [1, 2]) [3] 2).target = some [1, 2])
    ∧ (crashState (some [1, 2]) [3] 5).target = some [3] :=
  ⟨⟨by decide, (crash_target_cases (some [1, 2]) [3] 2).1.1 (by decide)⟩,
   (crash_target_cases (some [1, 2]) [3] 5).1.2.2 (by decide)⟩

/-- Witness for C9 at a concrete one-chunk block and full prefix. -/
theorem blockUpload_manifest_last_w :
    (blockUploadPaths ⟨⟨"B", 0, 1, 1⟩, ["c1"]⟩).getLast? = some (metaObjPath "B")
    ∧ metaObjPath "B" ∈ (blockUploadPaths ⟨⟨"B", 0, 1, 1⟩, ["c1"]⟩).take 3
    ∧ ∀ p ∈ blockUploadPaths ⟨⟨"B", 0, 1, 1⟩, ["c1"]⟩,
        p ∈ (blockUploadPaths ⟨⟨"B", 0, 1, 1⟩, ["c1"]⟩).take 3 :=
  ⟨(blockUpload_manifest_last ⟨⟨"B", 0, 1, 1⟩, ["c1"]⟩ 3).1,
   by decide,
   (blockUpload_manifest_last ⟨⟨"B", 0, 1, 1⟩, ["c1"]⟩ 3).2 (by decide)⟩

/-- Witness for C10 at a missing bookkeeping file and a nonempty block list. -/
theorem Timestamps_read_error_w :
    ReadMetaFile .absent = .error .notFound
    ∧ Timestamps .absent [⟨⟨"B1", 100, 200, 1⟩, []⟩] = (0, 0, some .notFound) :=
  ⟨rfl,
   Timestamps_read_error .absent .notFound [⟨⟨"B1", 100, 200, 1⟩, []⟩] rfl⟩


end Shipper
